import Mathlib

/-!
Verification development for the actions-log parsing engine.

The data model (`Line`, `Group`, `Command`, `Element`, `Styles`, `Color`) and
the `Parser.lines` wrapper are embedded from the TypeScript declarations in
the repository (src/unnamed/part_001, src/web/src/components/Preview.tsx).
The parsing/search/serialization core itself ships only as a compiled
artifact in this repository, so those operations are modelled from the
specification, as noted on each definition.
-/

namespace ActionsLogs

/-- From src/unnamed/part_001: `enum Command` with numeric values 1..9. -/
inductive Command : Type where
  | command
  | debug
  | error
  | info
  | notice
  | verbose
  | warning
  | group
  | endgroup
  deriving DecidableEq, Repr

/-- Numeric value of each `Command`, from the TS enum in src/unnamed/part_001. -/
def cmdCode : Command → Int
  | .command => 1
  | .debug => 2
  | .error => 3
  | .info => 4
  | .notice => 5
  | .verbose => 6
  | .warning => 7
  | .group => 8
  | .endgroup => 9

/-- From src/unnamed/part_001: `type Color = number | [number, number, number]`. -/
inductive Color : Type where
  | palette (idx : Nat)
  | rgb (r g b : Nat)
  deriving DecidableEq, Repr

/-- From src/unnamed/part_001: `interface Styles` with six optional fields. -/
structure Styles : Type where
  b : Option Bool := none
  i : Option Bool := none
  u : Option Bool := none
  hl : Option Bool := none
  fg : Option Color := none
  bg : Option Color := none
  deriving DecidableEq, Repr

/-- From src/unnamed/part_001: `type Element = TextElement | LinkElement | string`. -/
inductive Element : Type where
  | text (s : String)
  | styled (content : String) (styles : Styles)
  | link (href : String) (children : List Element)

/-- From src/unnamed/part_001: `interface Group` (children + ended), with the
child type a parameter so it can be nested inside `Line`. -/
structure GroupData (α : Type) : Type where
  children : List α
  ended : Bool

/-- From src/unnamed/part_001: `interface Line` with required `n`, `ts`,
`elements` and optional `cmd`, `group`. -/
inductive Line : Type where
  | mk (n : Nat) (ts : Int) (cmd : Option Command) (elements : List Element)
       (group : Option (GroupData Line))

def Line.n : Line → Nat
  | .mk v _ _ _ _ => v

def Line.ts : Line → Int
  | .mk _ v _ _ _ => v

def Line.cmd : Line → Option Command
  | .mk _ _ v _ _ => v

def Line.elements : Line → List Element
  | .mk _ _ _ v _ => v

def Line.group : Line → Option (GroupData Line)
  | .mk _ _ _ _ v => v

/-! ## Tokenizer (modelled from the spec)

Modelled from the spec: the Rust tokenizer/style-resolver is not under src/;
§4.1-§4.2 describe splitting raw text on line terminators and, within a line,
on SGR escape sequences, with a single accumulated style state. -/

/-- Modelled from the spec: split raw text on newline terminators, preserving
empty lines (mirrors `String.splitOn "\n"`). -/
def splitNl : List Char → List (List Char)
  | [] => [[]]
  | '\n' :: rest => [] :: splitNl rest
  | c :: rest =>
    match splitNl rest with
    | [] => [[c]]
    | g :: gs => (c :: g) :: gs

/-- Character allowed inside an SGR escape body (digits and semicolons). -/
def isCodeChar (c : Char) : Bool := c.isDigit || c == ';'

/-- Split an escape body on semicolons into digit groups. -/
def splitSemis : List Char → List (List Char)
  | [] => [[]]
  | ';' :: rest => [] :: splitSemis rest
  | c :: rest =>
    match splitSemis rest with
    | [] => [[c]]
    | g :: gs => (c :: g) :: gs

/-- Numeric value of a digit group (empty group reads as 0). -/
def digitGroupVal (g : List Char) : Nat :=
  g.foldl (fun a c => a * 10 + (c.toNat - 48)) 0

/-- Parse the body of an SGR escape into its code list. -/
def parseCodes (cs : List Char) : List Nat :=
  (splitSemis cs).map digitGroupVal

/-- Modelled from the spec (§4.1): apply SGR codes to the accumulated style
state: 0 reset, 1 bold, 3 italic, 4 underline, 30-37/90-97 indexed
foreground, 40-47/100-107 indexed background, 38;5;n / 48;2;r;g;b extended
colors; unknown codes are ignored. -/
def applyCodes (st : Styles) : List Nat → Styles
  | [] => st
  | 0 :: rest => applyCodes {} rest
  | 1 :: rest => applyCodes { st with b := some true } rest
  | 3 :: rest => applyCodes { st with i := some true } rest
  | 4 :: rest => applyCodes { st with u := some true } rest
  | 38 :: 5 :: n :: rest => applyCodes { st with fg := some (Color.palette n) } rest
  | 48 :: 5 :: n :: rest => applyCodes { st with bg := some (Color.palette n) } rest
  | 38 :: 2 :: r :: g :: b :: rest => applyCodes { st with fg := some (Color.rgb r g b) } rest
  | 48 :: 2 :: r :: g :: b :: rest => applyCodes { st with bg := some (Color.rgb r g b) } rest
  | c :: rest =>
    if 30 ≤ c ∧ c ≤ 37 then applyCodes { st with fg := some (Color.palette (c - 30)) } rest
    else if 90 ≤ c ∧ c ≤ 97 then applyCodes { st with fg := some (Color.palette (c - 82)) } rest
    else if 40 ≤ c ∧ c ≤ 47 then applyCodes { st with bg := some (Color.palette (c - 40)) } rest
    else if 100 ≤ c ∧ c ≤ 107 then applyCodes { st with bg := some (Color.palette (c - 92)) } rest
    else applyCodes st rest

/-- Modelled from the spec (§4.2): split one line into (text, style) runs.
A well-formed escape `ESC [ codes m` updates the state and starts a new run;
a malformed escape is dropped without aborting the line. Fuel is the input
length, so the fuel-exhausted branch is unreachable. Returns the runs and
the final style state (which persists to the next line). -/
def runsF (fuel : Nat) (st : Styles) (cur : List Char)
    (acc : List (List Char × Styles)) (cs : List Char) :
    List (List Char × Styles) × Styles :=
  match fuel, cs with
  | _, [] => (acc ++ (if cur.isEmpty then [] else [(cur.reverse, st)]), st)
  | 0, rest => (acc ++ [(cur.reverse ++ rest, st)], st)
  | f + 1, '\x1b' :: '[' :: rest =>
    let codeChars := rest.takeWhile isCodeChar
    match rest.dropWhile isCodeChar with
    | 'm' :: tail =>
      let acc2 := acc ++ (if cur.isEmpty then [] else [(cur.reverse, st)])
      runsF f (applyCodes st (parseCodes codeChars)) [] acc2 tail
    | other => runsF f st cur acc other
  | f + 1, c :: rest => runsF f st (c :: cur) acc rest

/-- Runs of one line starting from style state `st`. -/
def runsOf (st : Styles) (cs : List Char) : List (List Char × Styles) × Styles :=
  runsF (cs.length + 1) st [] [] cs

/-! ## Link detector (modelled from the spec §4.4) -/

/-- A text piece keeps its run's styles; an unstyled run stays a plain string. -/
def mkPiece (st : Styles) (cs : List Char) : Element :=
  if st = ({} : Styles) then Element.text cs.asString else Element.styled cs.asString st

def notSpace (c : Char) : Bool := !c.isWhitespace

/-- Modelled from the spec (§4.4): scan a run for `scheme://nonspace+`
substrings, splitting it into text pieces and link elements whose single
plain-text child is the matched substring. Fuel is the input length. -/
def linkifyF (st : Styles) : Nat → List Char → List Element → List Char → List Element
  | 0, cur, acc, cs =>
    acc ++ (if (cur.reverse ++ cs).isEmpty then [] else [mkPiece st (cur.reverse ++ cs)])
  | f + 1, cur, acc, cs =>
    match cs with
    | [] => acc ++ (if cur.isEmpty then [] else [mkPiece st cur.reverse])
    | ':' :: '/' :: '/' :: rest =>
      let scheme := cur.takeWhile Char.isAlpha
      let after := rest.takeWhile notSpace
      if !scheme.isEmpty && !after.isEmpty then
        let pre := (cur.drop scheme.length).reverse
        let url := scheme.reverse ++ ':' :: '/' :: '/' :: after
        let acc2 := acc ++ (if pre.isEmpty then [] else [mkPiece st pre])
          ++ [Element.link url.asString [Element.text url.asString]]
        linkifyF st f [] acc2 (rest.drop after.length)
      else
        linkifyF st f ('/' :: '/' :: ':' :: cur) acc rest
    | c :: rest => linkifyF st f (c :: cur) acc rest

def linkifyRun (st : Styles) (cs : List Char) : List Element :=
  linkifyF st (cs.length + 1) [] [] cs

def elemsOfRuns (runs : List (List Char × Styles)) : List Element :=
  (runs.map (fun r => linkifyRun r.2 r.1)).flatten

/-! ## Command annotation parser (modelled from the spec §4.3) -/

/-- Keyword lookup table, the closed enumeration from the spec and the TS
`Command` enum. Unknown keywords resolve to none. -/
def cmdOfKeyword : String → Option Command
  | "command" => some Command.command
  | "debug" => some Command.debug
  | "error" => some Command.error
  | "info" => some Command.info
  | "notice" => some Command.notice
  | "verbose" => some Command.verbose
  | "warning" => some Command.warning
  | "group" => some Command.group
  | "endgroup" => some Command.endgroup
  | _ => none

/-- Modelled from the spec (§4.3): recognize a `##[keyword]` marker prefix via
the exact lookup table; an unrecognized keyword yields no command and the
full original text as content. -/
def parseMarker (cs : List Char) : Option Command × List Char :=
  match cs with
  | '#' :: '#' :: '[' :: rest =>
    let kw := rest.takeWhile (fun c => c != ']')
    match rest.dropWhile (fun c => c != ']') with
    | ']' :: content =>
      match cmdOfKeyword kw.asString with
      | some c => (some c, content)
      | none => (none, cs)
    | _ => (none, cs)
  | _ => (none, cs)

/-- ISO-8601-shaped leading token: `DDDD-DD-DDT…Z` with digits, colons and
dots in the middle. Modelled from the spec, which only says "an optional
leading timestamp token". -/
def isTimestampTok (t : List Char) : Bool :=
  match t with
  | y1 :: y2 :: y3 :: y4 :: '-' :: m1 :: m2 :: '-' :: d1 :: d2 :: 'T' :: rest =>
    [y1, y2, y3, y4, m1, m2, d1, d2].all Char.isDigit && !rest.isEmpty &&
      rest.getLast? == some 'Z' &&
      rest.dropLast.all (fun c => c.isDigit || c == ':' || c == '.')
  | _ => false

/-- Numeric reading of a timestamp token (concatenated digits); the model
only needs a deterministic value, `ts` defaults to 0 when no token exists
because the TS `Line` interface declares `ts: number` as required. -/
def digitsVal (t : List Char) : Int :=
  Int.ofNat (t.foldl (fun a c => if c.isDigit then a * 10 + (c.toNat - 48) else a) 0)

/-- One raw line after annotation parsing: timestamp value, optional command,
remaining content text. -/
structure ParsedLn : Type where
  ts : Int
  cmd : Option Command
  content : List Char

/-- Modelled from the spec (§4.3): consume an optional leading timestamp
token, then recognize the `##[keyword]` marker on the remainder. -/
def parseLn (cs : List Char) : ParsedLn :=
  let tok := cs.takeWhile (fun c => c != ' ')
  if isTimestampTok tok then
    let rest := (cs.dropWhile (fun c => c != ' ')).drop 1
    let pm := parseMarker rest
    ⟨digitsVal tok, pm.1, pm.2⟩
  else
    let pm := parseMarker cs
    ⟨0, pm.1, pm.2⟩

/-! ## Line assembly: elements, numbering, group folding -/

/-- A line with elements computed but no sequence number yet. -/
structure PreL0 : Type where
  ts : Int
  cmd : Option Command
  elements : List Element

/-- A fully prepared line before group folding. -/
structure PreL : Type where
  n : Nat
  ts : Int
  cmd : Option Command
  elements : List Element

/-- Thread the accumulated style state through the lines of the document,
producing each line's element list. -/
def buildDoc (st : Styles) : List ParsedLn → List PreL0
  | [] => []
  | p :: ps =>
    let rs := runsOf st p.content
    ⟨p.ts, p.cmd, elemsOfRuns rs.1⟩ :: buildDoc rs.2 ps

/-- Modelled from the spec: sequence numbers are assigned to every line that
will appear in the tree; an `endgroup` marker line is structural and does
not consume an index (per the spec's group-balance example, the line after
`##[endgroup]` has `n = 2`, not 3). -/
def assignNums (i : Nat) : List PreL0 → List PreL
  | [] => []
  | p :: ps =>
    if p.cmd = some Command.endgroup then ⟨i, p.ts, p.cmd, p.elements⟩ :: assignNums i ps
    else ⟨i, p.ts, p.cmd, p.elements⟩ :: assignNums (i + 1) ps

def mkLine (p : PreL) (g : Option (GroupData Line)) : Line :=
  .mk p.n p.ts p.cmd p.elements g

/-- Close the whole builder stack at end of input (all `ended := false`),
innermost first; `ln` is the already-closed innermost line. -/
def nestCloseF : Line → List (PreL × List Line) → Line
  | ln, [] => ln
  | ln, (o, k) :: rest => nestCloseF (mkLine o (some ⟨k ++ [ln], false⟩)) rest

/-- Finalize remaining open builders onto the root accumulator. -/
def closeAll (stack : List (PreL × List Line)) (root : List Line) : List Line :=
  match stack with
  | [] => root
  | (o, k) :: rest => root ++ [nestCloseF (mkLine o (some ⟨k, false⟩)) rest]

/-- Append a finished line to the innermost open builder, or to the root. -/
def pushLine (stack : List (PreL × List Line)) (root : List Line) (ln : Line) :
    List (PreL × List Line) × List Line :=
  match stack with
  | [] => ([], root ++ [ln])
  | (o, k) :: rest => ((o, k ++ [ln]) :: rest, root)

/-- Modelled from the spec (§4.5): the group stack state machine. A `Group`
line pushes a builder; an `EndGroup` line pops the innermost builder, marks
it `ended := true`, and is itself discarded (a stray `EndGroup` with no open
builder is also discarded); any other line is appended to the innermost
builder or to the root. -/
def foldAux (stack : List (PreL × List Line)) (root : List Line) : List PreL → List Line
  | [] => closeAll stack root
  | p :: ps =>
    if p.cmd = some Command.group then
      foldAux ((p, []) :: stack) root ps
    else if p.cmd = some Command.endgroup then
      match stack with
      | [] => foldAux [] root ps
      | (o, k) :: rest =>
        let pr := pushLine rest root (mkLine o (some ⟨k, true⟩))
        foldAux pr.1 pr.2 ps
    else
      let pr := pushLine stack root (mkLine p none)
      foldAux pr.1 pr.2 ps

def foldGroups (ps : List PreL) : List Line := foldAux [] [] ps

/-- Modelled from the spec (§4.8): the full reparse pipeline
tokenizer → annotation parser → link detector → group stack manager. -/
def parseDoc (s : String) : List Line :=
  foldGroups (assignNums 0 (buildDoc {} ((splitNl s.data).map parseLn)))

/-! ## Tree traversal helpers -/

mutual

/-- Sequence numbers of a line and of all lines nested below it, in
traversal order. -/
def collectLine : Line → List Nat
  | .mk n _ _ _ none => [n]
  | .mk n _ _ _ (some ⟨kids, _⟩) => n :: collectLines kids

/-- Sequence numbers of a forest of lines, in traversal order. -/
def collectLines : List Line → List Nat
  | [] => []
  | l :: ls => collectLine l ++ collectLines ls

end

mutual

/-- Searchable texts of one element (a link is searched through its
text-bearing children, not its href). -/
def elementTexts : Element → List (List Char)
  | .text s => [s.data]
  | .styled c _ => [c.data]
  | .link _ kids => elementsTexts kids

def elementsTexts : List Element → List (List Char)
  | [] => []
  | e :: es => elementTexts e ++ elementsTexts es

end

mutual

/-- Searchable texts of a line and everything nested below it. -/
def lineTexts : Line → List (List Char)
  | .mk _ _ _ es none => elementsTexts es
  | .mk _ _ _ es (some ⟨kids, _⟩) => elementsTexts es ++ linesTexts kids

def linesTexts : List Line → List (List Char)
  | [] => []
  | l :: ls => lineTexts l ++ linesTexts ls

end

/-! ## Search index (modelled from the spec §4.6) -/

def lcList (cs : List Char) : List Char := cs.map Char.toLower

/-- Count non-overlapping occurrences of the (already lowercased) pattern in
`s`, case-insensitively. Fuel is the text length. -/
def countOccF (pat : List Char) : Nat → List Char → Nat
  | 0, _ => 0
  | f + 1, s =>
    match s with
    | [] => 0
    | _ :: cs =>
      if pat.isPrefixOf (lcList s) then 1 + countOccF pat f (s.drop pat.length)
      else countOccF pat f cs

def countOcc (pat s : List Char) : Nat := countOccF pat s.length s

/-- Modelled from the spec (§4.6): total non-overlapping case-insensitive
match count of `term` over every text-bearing element of the tree; the
empty term yields zero matches. -/
def computeMatches (term : String) (doc : List Line) : Nat :=
  if term = "" then 0
  else ((linesTexts doc).map (countOcc (lcList term.data))).sum

/-- Split a text at its case-insensitive matches of `pat`; each chunk is
tagged with whether it is a matched span. Fuel is the text length. -/
def splitMatchesF (pat : List Char) : Nat → List Char → List Char → List (List Char × Bool)
  | 0, cur, s => if cur.isEmpty && s.isEmpty then [] else [(cur.reverse ++ s, false)]
  | f + 1, cur, s =>
    match s with
    | [] => if cur.isEmpty then [] else [(cur.reverse, false)]
    | c :: cs =>
      if pat.isPrefixOf (lcList s) then
        (if cur.isEmpty then [] else [(cur.reverse, false)]) ++
          (s.take pat.length, true) :: splitMatchesF pat f [] (s.drop pat.length)
      else splitMatchesF pat f (c :: cur) cs

def splitMatches (pat s : List Char) : List (List Char × Bool) :=
  splitMatchesF pat s.length [] s

/-- Highlight overlay for one chunk: a matched span gets `hl := true` on top
of the chunk's inherited styles. -/
def hlChunk (st : Styles) (chunk : List Char × Bool) : Element :=
  if chunk.2 then Element.styled chunk.1.asString { st with hl := some true }
  else mkPiece st chunk.1

mutual

/-- Modelled from the spec (§4.6): the highlight overlay splits matched text
into spans carrying `hl := true`, leaving unmatched spans and all other
state untouched. -/
def hlElementL (pat : List Char) : Element → List Element
  | .text s => (splitMatches pat s.data).map (hlChunk {})
  | .styled c st => (splitMatches pat c.data).map (hlChunk st)
  | .link href kids => [Element.link href (hlElemsL pat kids)]

def hlElemsL (pat : List Char) : List Element → List Element
  | [] => []
  | e :: es => hlElementL pat e ++ hlElemsL pat es

end

mutual

def hlLine (pat : List Char) : Line → Line
  | .mk n ts cmd es none => .mk n ts cmd (hlElemsL pat es) none
  | .mk n ts cmd es (some ⟨kids, ended⟩) =>
    .mk n ts cmd (hlElemsL pat es) (some ⟨hlLines pat kids, ended⟩)

def hlLines (pat : List Char) : List Line → List Line
  | [] => []
  | l :: ls => hlLine pat l :: hlLines pat ls

end

/-- The document with the search highlight overlay applied; an empty term
leaves the document untouched. -/
def hlApply (term : String) (doc : List Line) : List Line :=
  if term = "" then doc else hlLines (lcList term.data) doc

/-! ## Serializer (modelled from the spec §4.7, shape fixed by the TS
declarations in src/unnamed/part_001: `n` and `ts` are required fields,
`cmd` and `group` are optional and omitted when absent) -/

/-- JSON value tree. -/
inductive Json : Type where
  | str (s : String)
  | num (n : Int)
  | bool (b : Bool)
  | arr (xs : List Json)
  | obj (fields : List (String × Json))

def Json.isArr : Json → Bool
  | .arr _ => true
  | _ => false

/-- Keys of a JSON object (empty for non-objects). -/
def objKeys : Json → List String
  | .obj fs => fs.map (fun f => f.1)
  | _ => []

def jsonOfColor : Color → Json
  | .palette i => .num (Int.ofNat i)
  | .rgb r g b => .arr [.num (Int.ofNat r), .num (Int.ofNat g), .num (Int.ofNat b)]

/-- Optional field: omitted when absent, per the spec and the `?` fields of
the TS interfaces. -/
def optField (k : String) : Option Json → List (String × Json)
  | none => []
  | some v => [(k, v)]

def jsonOfStyles (st : Styles) : Json :=
  .obj (optField "b" (st.b.map .bool) ++ optField "i" (st.i.map .bool) ++
    optField "u" (st.u.map .bool) ++ optField "hl" (st.hl.map .bool) ++
    optField "fg" (st.fg.map jsonOfColor) ++ optField "bg" (st.bg.map jsonOfColor))

mutual

def jsonOfElement : Element → Json
  | .text s => .str s
  | .styled c st => .obj [("content", .str c), ("styles", jsonOfStyles st)]
  | .link href kids => .obj [("href", .str href), ("children", .arr (jsonOfElements kids))]

def jsonOfElements : List Element → List Json
  | [] => []
  | e :: es => jsonOfElement e :: jsonOfElements es

end

mutual

/-- Serialized shape of a line: required `n`, `ts`, `elements`; `cmd` and
`group` present only when set (TS declaration in src/unnamed/part_001). -/
def jsonOfLine : Line → Json
  | .mk n ts cmd es g =>
    .obj ([("n", .num (Int.ofNat n)), ("ts", .num ts)] ++
      optField "cmd" (cmd.map (fun c => .num (cmdCode c))) ++
      [("elements", .arr (jsonOfElements es))] ++
      (match g with
       | none => []
       | some ⟨kids, ended⟩ =>
         [("group", .obj [("children", .arr (jsonOfLines kids)), ("ended", .bool ended)])]))

def jsonOfLines : List Line → List Json
  | [] => []
  | l :: ls => jsonOfLine l :: jsonOfLines ls

end

/-- The document serializes as a JSON array of its root lines. -/
def jsonOfDoc (doc : List Line) : Json := .arr (jsonOfLines doc)

def escapeChar (c : Char) : List Char :=
  if c = '"' then ['\\', '"']
  else if c = '\\' then ['\\', '\\']
  else if c = '\n' then ['\\', 'n']
  else if c = '\r' then ['\\', 'r']
  else if c = '\t' then ['\\', 't']
  else [c]

def quoteJson (s : String) : String :=
  "\"" ++ ((s.data.map escapeChar).flatten).asString ++ "\""

mutual

/-- Compact textual rendering (no extraneous whitespace). -/
def renderJson : Json → String
  | .str s => quoteJson s
  | .num n => toString n
  | .bool b => if b then "true" else "false"
  | .arr xs => "[" ++ renderArr xs ++ "]"
  | .obj fs => "\x7b" ++ renderObj fs ++ "\x7d"

def renderArr : List Json → String
  | [] => ""
  | [x] => renderJson x
  | x :: y :: xs => renderJson x ++ "," ++ renderArr (y :: xs)

def renderObj : List (String × Json) → String
  | [] => ""
  | [(k, v)] => quoteJson k ++ ":" ++ renderJson v
  | (k, v) :: f :: fs => quoteJson k ++ ":" ++ renderJson v ++ "," ++ renderObj (f :: fs)

end

def indentStr (d : Nat) : String := (List.replicate (2 * d) ' ').asString

mutual

/-- Pretty (indented) textual rendering. -/
def renderJsonP (d : Nat) : Json → String
  | .str s => quoteJson s
  | .num n => toString n
  | .bool b => if b then "true" else "false"
  | .arr [] => "[]"
  | .arr (x :: xs) =>
    "[\n" ++ renderArrP (d + 1) (x :: xs) ++ "\n" ++ indentStr d ++ "]"
  | .obj [] => "\x7b\x7d"
  | .obj (f :: fs) =>
    "\x7b\n" ++ renderObjP (d + 1) (f :: fs) ++ "\n" ++ indentStr d ++ "\x7d"

def renderArrP (d : Nat) : List Json → String
  | [] => ""
  | [x] => indentStr d ++ renderJsonP d x
  | x :: y :: xs => indentStr d ++ renderJsonP d x ++ ",\n" ++ renderArrP d (y :: xs)

def renderObjP (d : Nat) : List (String × Json) → String
  | [] => ""
  | [(k, v)] => indentStr d ++ quoteJson k ++ ": " ++ renderJsonP d v
  | (k, v) :: f :: fs =>
    indentStr d ++ quoteJson k ++ ": " ++ renderJsonP d v ++ ",\n" ++ renderObjP d (f :: fs)

end

/-! ## Engine facade (modelled from the spec §4.8 and §6) -/

/-- Modelled from the spec: the engine owns the raw text, the search term,
the parsed document and the derived match count. -/
structure Engine : Type where
  raw : String
  term : String
  doc : List Line
  matchCount : Nat

/-- A fresh engine with no text and no search term. -/
def Engine.init : Engine :=
  ⟨"", "", parseDoc "", computeMatches "" (parseDoc "")⟩

/-- Modelled from the spec: full reparse, atomic document replacement, then
the search index is recomputed with the existing term. -/
def Engine.setRaw (e : Engine) (s : String) : Engine :=
  let d := parseDoc s
  ⟨s, e.term, d, computeMatches e.term d⟩

/-- Modelled from the spec: recompute only the search index against the
existing document. -/
def Engine.setSearch (e : Engine) (t : String) : Engine :=
  ⟨e.raw, t, e.doc, computeMatches t e.doc⟩

def Engine.getMatches (e : Engine) : Nat := e.matchCount

/-- The JSON value serialized by `stringify`: the current document with the
search highlight overlay applied at serialization time. -/
def Engine.stringifyJson (e : Engine) : Json := jsonOfDoc (hlApply e.term e.doc)

/-- Modelled from the spec (§6): textual serialization of the current
document, compact or pretty. -/
def Engine.stringify (e : Engine) (pretty : Bool) : String :=
  if pretty then renderJsonP 0 e.stringifyJson else renderJson e.stringifyJson

/-- From src/unnamed/part_001 `Parser.lines`: JSON-parse the compact
serialization, throw `TypeError("expected array")` when the top-level value
is not an array, otherwise return the array unchanged. `JSON.parse` applied
to `JSON`-rendered output is modelled as the identity at the `Json` value
level. -/
def linesOfJson : Json → Except String (List Json)
  | .arr xs => .ok xs
  | _ => .error "expected array"

/-- The `lines()` method of the TS `Parser` wrapper. -/
def Engine.linesTS (e : Engine) : Except String (List Json) :=
  linesOfJson e.stringifyJson

/-! ## Color table (from src/web/src/components/Preview.tsx `colorToCSS`) -/

/-- The color name array literally embedded in `colorToCSS`
(src/web/src/components/Preview.tsx); note it has 17 entries. -/
def cssColorNames : List String :=
  ["black", "red", "green", "yellow", "blue", "magenta", "cyan", "white",
   "gray", "dark gray", "light red", "light green", "light yellow",
   "light blue", "light magenta", "light cyan", "light white"]

/-- From src/web/src/components/Preview.tsx: an RGB triple renders as
`rgb(r,g,b)`; a palette index looks up the name array, falling back to
`"inherit"` when the lookup yields nothing (the JS `|| "inherit"`). -/
def colorToCSS : Color → String
  | .rgb r g b => "rgb(" ++ toString r ++ "," ++ toString g ++ "," ++ toString b ++ ")"
  | .palette i => cssColorNames.getD i "inherit"


/-! ## Traversal bookkeeping for the numbering invariant -/

/-- Nested builders of the group stack contribute their opener index and
accumulated children ahead of the given inner tail, outermost first. -/
def stackNs : List (PreL × List Line) → List Nat → List Nat
  | [], inner => inner
  | (o, k) :: rest, inner => stackNs rest (o.n :: (collectLines k ++ inner))

/-- Sequence numbers of the lines that will appear in the tree, in input
order (endgroup marker lines are skipped). -/
def emittedNs : List PreL → List Nat
  | [] => []
  | p :: ps => if p.cmd = some Command.endgroup then emittedNs ps else p.n :: emittedNs ps

/-! ## General lemmas -/

theorem collectLines_append (a b : List Line) :
    collectLines (a ++ b) = collectLines a ++ collectLines b := by
  induction a with
  | nil => simp [collectLines]
  | cons l ls ih => simp [collectLines, ih]

theorem collectLine_mkLine_some (o : PreL) (k : List Line) (e : Bool) :
    collectLine (mkLine o (some ⟨k, e⟩)) = o.n :: collectLines k := rfl

theorem collectLine_mkLine_none (p : PreL) : collectLine (mkLine p none) = [p.n] := rfl

theorem nestCloseF_collect (rest : List (PreL × List Line)) (ln : Line) :
    collectLine (nestCloseF ln rest) = stackNs rest (collectLine ln) := by
  induction rest generalizing ln with
  | nil => rfl
  | cons b rest ih =>
    obtain ⟨o, k⟩ := b
    simp [nestCloseF, ih, collectLine_mkLine_some, collectLines_append, stackNs, collectLines]

theorem foldAux_collect (ps : List PreL) :
    ∀ stack root, collectLines (foldAux stack root ps) =
      collectLines root ++ stackNs stack (emittedNs ps) := by
  induction ps with
  | nil =>
    intro stack root
    cases stack with
    | nil => simp [foldAux, closeAll, stackNs, emittedNs]
    | cons b rest =>
      obtain ⟨o, k⟩ := b
      simp [foldAux, closeAll, collectLines_append, nestCloseF_collect,
        collectLine_mkLine_some, stackNs, emittedNs, collectLines]
  | cons p ps ih =>
    intro stack root
    by_cases hg : p.cmd = some Command.group
    · have hne : ¬ p.cmd = some Command.endgroup := by simp [hg]
      simp [foldAux, hg, hne, ih, stackNs, emittedNs, collectLines]
    · by_cases he : p.cmd = some Command.endgroup
      · cases stack with
        | nil => simp [foldAux, hg, he, ih, stackNs, emittedNs]
        | cons b rest =>
          obtain ⟨o, k⟩ := b
          cases rest with
          | nil =>
            simp [foldAux, hg, he, pushLine, ih, stackNs, emittedNs,
              collectLines_append, collectLine_mkLine_some, collectLines]
          | cons b2 rest2 =>
            obtain ⟨o2, k2⟩ := b2
            simp [foldAux, hg, he, pushLine, ih, stackNs, emittedNs,
              collectLines_append, collectLine_mkLine_some, collectLines]
      · cases stack with
        | nil =>
          simp [foldAux, hg, he, pushLine, ih, stackNs, emittedNs,
            collectLines_append, collectLine_mkLine_none, collectLines]
        | cons b rest =>
          obtain ⟨o, k⟩ := b
          simp [foldAux, hg, he, pushLine, ih, stackNs, emittedNs,
            collectLines_append, collectLine_mkLine_none, collectLines]

theorem emittedNs_assignNums (l : List PreL0) :
    ∀ i, emittedNs (assignNums i l) =
      List.range' i (l.countP (fun p => p.cmd != some Command.endgroup)) := by
  induction l with
  | nil => intro i; simp [assignNums, emittedNs]
  | cons p ps ih =>
    intro i
    by_cases h : p.cmd = some Command.endgroup
    · simp [assignNums, emittedNs, h, List.countP_cons, ih]
    · simp [assignNums, emittedNs, h, List.countP_cons, ih, List.range'_succ]

theorem countP_cmd_buildDoc (l : List ParsedLn) :
    ∀ st, (buildDoc st l).countP (fun p => p.cmd != some Command.endgroup) =
      l.countP (fun p => p.cmd != some Command.endgroup) := by
  induction l with
  | nil => intro st; simp [buildDoc]
  | cons p ps ih => intro st; simp [buildDoc, List.countP_cons, ih]

theorem takeWhile_all_append (p : Char → Bool) (xs ys : List Char)
    (h : ∀ c ∈ xs, p c = true) : (xs ++ ys).takeWhile p = xs ++ ys.takeWhile p := by
  induction xs with
  | nil => simp
  | cons c cs ih =>
    simp only [List.cons_append, List.takeWhile_cons, h c (by simp), if_true]
    rw [ih (fun d hd => h d (by simp [hd]))]

theorem dropWhile_all_append (p : Char → Bool) (xs ys : List Char)
    (h : ∀ c ∈ xs, p c = true) : (xs ++ ys).dropWhile p = ys.dropWhile p := by
  induction xs with
  | nil => simp
  | cons c cs ih =>
    simp only [List.cons_append, List.dropWhile_cons, h c (by simp), if_true]
    exact ih (fun d hd => h d (by simp [hd]))

theorem parseMarker_unknown (kw rest : List Char)
    (hk : ∀ c ∈ kw, (c != ']') = true)
    (hu : cmdOfKeyword kw.asString = none) :
    parseMarker ('#' :: '#' :: '[' :: (kw ++ ']' :: rest)) =
      (none, '#' :: '#' :: '[' :: (kw ++ ']' :: rest)) := by
  simp only [parseMarker, takeWhile_all_append _ kw (']' :: rest) hk,
    dropWhile_all_append _ kw (']' :: rest) hk]
  simp [hu, List.takeWhile, List.dropWhile]

theorem foldAux_single_open (ps : List PreL) :
    ∀ (o : PreL) (k : List Line) (root : List Line),
    (∀ q ∈ ps, q.cmd ≠ some Command.group ∧ q.cmd ≠ some Command.endgroup) →
    foldAux [(o, k)] root ps =
      root ++ [mkLine o (some ⟨k ++ ps.map (fun q => mkLine q none), false⟩)] := by
  induction ps with
  | nil => intro o k root _; simp [foldAux, closeAll, nestCloseF]
  | cons q ps ih =>
    intro o k root h
    have hq := h q (by simp)
    simp only [foldAux, hq.1, hq.2, if_neg, pushLine]
    rw [ih o (k ++ [mkLine q none]) root (fun r hr => h r (by simp [hr]))]
    simp

/-! ## Claims -/

/-- C1 counterexample: for the spec's own group-balance input the original
line count is 4, but the tree holds the `n` values [0, 1, 2] — the marker
line consumed an input line without contributing an index, so the multiset
of `Line.n` values is not {0, …, k-1}. -/
theorem c1_line_numbers_counterexample :
    ¬ (collectLines (parseDoc "##[group]A\nB\n##[endgroup]\nC")).Perm
      (List.range ((splitNl "##[group]A\nB\n##[endgroup]\nC".data).length)) := by
  decide

/-- C1 (amended): the `Line.n` values of the parsed tree, read in traversal
order, are exactly 0, …, m-1 where m is the number of input lines whose
parsed command is not `EndGroup`; hence they are duplicate-free and gapless,
and each emitted line's `n` is its 0-based index among non-EndGroup lines
(rather than among all original lines, as the claim stated). -/
theorem c1_line_numbers_amended (s : String) :
    collectLines (parseDoc s) =
      List.range (((splitNl s.data).map parseLn).countP
        (fun p => p.cmd != some Command.endgroup)) := by
  rw [List.range_eq_range']
  have h1 := foldAux_collect (assignNums 0 (buildDoc {} ((splitNl s.data).map parseLn))) [] []
  simp [parseDoc, foldGroups, h1, collectLines, stackNs, emittedNs_assignNums,
    countP_cmd_buildDoc]

/-- C2: the group-balance example: two root lines, the first opens an ended
group holding line 1, the endgroup marker line vanishes, and the trailing
line gets `n = 2`. -/
theorem c2_group_balance :
    parseDoc "##[group]A\nB\n##[endgroup]\nC" =
      [Line.mk 0 0 (some Command.group) [Element.text "A"]
         (some ⟨[Line.mk 1 0 none [Element.text "B"] none], true⟩),
       Line.mk 2 0 none [Element.text "C"] none] := rfl

/-- C3: parsing is total and degrades safely: `setRaw` always installs the
full reparse of its input; a `##[keyword]` line with an unrecognized keyword
yields no command and the full original text as content (stated generally
and on a concrete line); a malformed escape sequence is dropped without
losing the line. Decoding failures cannot occur in the model because input
is already text. -/
theorem c3_total_and_fallbacks :
    (∀ (e : Engine) (s : String), (e.setRaw s).raw = s ∧ (e.setRaw s).doc = parseDoc s)
    ∧ (∀ kw rest : List Char, (∀ c ∈ kw, (c != ']') = true) →
        cmdOfKeyword kw.asString = none →
        parseMarker ('#' :: '#' :: '[' :: (kw ++ ']' :: rest)) =
          (none, '#' :: '#' :: '[' :: (kw ++ ']' :: rest)))
    ∧ parseLn "##[bogus]hi".data = ⟨0, none, "##[bogus]hi".data⟩
    ∧ parseDoc "a\x1b[12?b" = [Line.mk 0 0 none [Element.text "a?b"] none] := by
  refine ⟨fun e s => ⟨rfl, rfl⟩, parseMarker_unknown, rfl, rfl⟩

theorem c3_witness :
    parseMarker ('#' :: '#' :: '[' :: ("bogus".data ++ ']' :: "hi".data)) =
      (none, '#' :: '#' :: '[' :: ("bogus".data ++ ']' :: "hi".data)) :=
  c3_total_and_fallbacks.2.1 "bogus".data "hi".data (by decide) (by rfl)

/-- C4: `setSearch` recomputes the match count as the total of
non-overlapping case-insensitive occurrences over every text-bearing
element of the whole tree (`computeMatches`); the empty term yields zero;
and the spec's three-element example yields 3 for "FOO" and 0 for "". -/
theorem c4_search_matches :
    (∀ (e : Engine) (t : String), Engine.getMatches (e.setSearch t) = computeMatches t e.doc)
    ∧ (∀ doc : List Line, computeMatches "" doc = 0)
    ∧ Engine.getMatches
        ((Engine.init.setRaw "xFOO\n##[group]foo stuff\nyfOo\n##[endgroup]").setSearch "FOO") = 3
    ∧ Engine.getMatches
        (((Engine.init.setRaw "xFOO\n##[group]foo stuff\nyfOo\n##[endgroup]").setSearch
          "FOO").setSearch "") = 0 := by
  refine ⟨fun e t => rfl, fun doc => by simp [computeMatches], rfl, rfl⟩

/-- C5: an opening marker with no matching close produces `ended = false`
and absorbs all remaining lines (stated generally at the group-stack level
for a tail of plain lines, and end-to-end on the spec's example input). -/
theorem c5_unterminated_group :
    (∀ (p : PreL) (ps : List PreL), p.cmd = some Command.group →
      (∀ q ∈ ps, q.cmd ≠ some Command.group ∧ q.cmd ≠ some Command.endgroup) →
      foldGroups (p :: ps) =
        [mkLine p (some ⟨ps.map (fun q => mkLine q none), false⟩)])
    ∧ parseDoc "##[group]A\nB" =
        [Line.mk 0 0 (some Command.group) [Element.text "A"]
          (some ⟨[Line.mk 1 0 none [Element.text "B"] none], false⟩)] := by
  refine ⟨fun p ps hp hps => ?_, rfl⟩
  simp only [foldGroups, foldAux, hp, if_pos]
  rw [foldAux_single_open ps p [] [] hps]
  simp

theorem c5_witness :
    foldGroups [⟨0, 0, some Command.group, []⟩, ⟨1, 0, none, []⟩] =
      [mkLine ⟨0, 0, some Command.group, []⟩
        (some ⟨[mkLine ⟨1, 0, none, []⟩ none], false⟩)] := by
  have h := c5_unterminated_group.1 ⟨0, 0, some Command.group, []⟩ [⟨1, 0, none, []⟩]
    (by rfl) (by decide)
  simpa using h

/-- C6: `setSearch` changes only the derived search state: the parsed
document (every `Line`, `Element` and `Styles` in it) and the raw text are
untouched, and `stringify` computes its `hl` highlight overlay at
serialization time from the term and the unchanged document. -/
theorem c6_search_frame (e : Engine) (t : String) (p : Bool) :
    (e.setSearch t).doc = e.doc ∧ (e.setSearch t).raw = e.raw ∧
    Engine.stringify (e.setSearch t) p =
      (if p then renderJsonP 0 (jsonOfDoc (hlApply t e.doc))
       else renderJson (jsonOfDoc (hlApply t e.doc))) :=
  ⟨rfl, rfl, rfl⟩

/-- C7 counterexample: the name table embedded in `colorToCSS` has a 17th
entry, so palette index 16 — outside [0,15] — still maps to a fixed name
rather than falling through; the claim's "no palette index outside [0,15]
is mapped to a name" fails. -/
theorem c7_palette_counterexample :
    colorToCSS (Color.palette 16) = "light white" ∧ "light white" ≠ "inherit" := by
  exact ⟨rfl, by decide⟩

/-- C7 (amended): the embedded color name table has 17 entries; palette
indices 0-16 map to pairwise distinct fixed names, and any index ≥ 17 falls
back to "inherit". -/
theorem c7_palette_table_amended :
    cssColorNames.length = 17
    ∧ (∀ i, i < 17 → ∀ j, j < 17 → i ≠ j →
        colorToCSS (Color.palette i) ≠ colorToCSS (Color.palette j))
    ∧ (∀ i, 17 ≤ i → colorToCSS (Color.palette i) = "inherit") := by
  refine ⟨rfl, by decide, fun i hi => ?_⟩
  simp only [colorToCSS]
  exact List.getD_eq_default _ _ (by simpa using hi)

theorem c7_witness :
    colorToCSS (Color.palette 0) ≠ colorToCSS (Color.palette 1)
    ∧ colorToCSS (Color.palette 17) = "inherit" :=
  ⟨c7_palette_table_amended.2.1 0 (by decide) 1 (by decide) (by decide),
   c7_palette_table_amended.2.2 17 (by decide)⟩

/-- C8 counterexample: a line with no leading timestamp token still carries
a timestamp: it parses with `ts = 0` and its serialization emits the "ts"
key (alongside "n" and "elements", with "cmd" and "group" omitted) — the
timestamp is a required defaulted field, not an omitted optional one. -/
theorem c8_ts_counterexample :
    parseDoc "hello" = [Line.mk 0 0 none [Element.text "hello"] none]
    ∧ objKeys (jsonOfLine (Line.mk 0 0 none [Element.text "hello"] none)) =
        ["n", "ts", "elements"]
    ∧ (Line.mk 0 0 none [Element.text "hello"] none).ts = 0 :=
  ⟨rfl, rfl, rfl⟩

/-- C8 (amended): per the TS `Line` interface, `ts` is a required numeric
field: a line without a leading timestamp token gets the default value 0,
and serialization always emits "n" and "ts", while "cmd" and "group" are
emitted exactly when present. -/
theorem c8_ts_required_amended :
    (∀ cs : List Char, isTimestampTok (cs.takeWhile (fun c => c != ' ')) = false →
      (parseLn cs).ts = 0)
    ∧ (∀ l : Line, "ts" ∈ objKeys (jsonOfLine l) ∧ "n" ∈ objKeys (jsonOfLine l))
    ∧ (∀ l : Line, "cmd" ∈ objKeys (jsonOfLine l) ↔ l.cmd.isSome)
    ∧ (∀ l : Line, "group" ∈ objKeys (jsonOfLine l) ↔ l.group.isSome) := by
  refine ⟨fun cs h => by simp [parseLn, h], fun l => ?_, fun l => ?_, fun l => ?_⟩
  · obtain ⟨n, ts, cmd, es, g⟩ := l
    cases g with
    | none => cases cmd <;> simp [jsonOfLine, objKeys, optField]
    | some gd => obtain ⟨kids, ended⟩ := gd; cases cmd <;> simp [jsonOfLine, objKeys, optField]
  · obtain ⟨n, ts, cmd, es, g⟩ := l
    cases g with
    | none => cases cmd <;> simp [jsonOfLine, objKeys, optField, Line.cmd]
    | some gd =>
      obtain ⟨kids, ended⟩ := gd; cases cmd <;> simp [jsonOfLine, objKeys, optField, Line.cmd]
  · obtain ⟨n, ts, cmd, es, g⟩ := l
    cases g with
    | none => cases cmd <;> simp [jsonOfLine, objKeys, optField, Line.group]
    | some gd =>
      obtain ⟨kids, ended⟩ := gd; cases cmd <;> simp [jsonOfLine, objKeys, optField, Line.group]

theorem c8_witness : (parseLn "hello".data).ts = 0 :=
  c8_ts_required_amended.1 "hello".data (by rfl)

/-- C9: `stringify` is deterministic and repeat-stable: after setting the
same raw text and the same term, the serialized output is a function of
(text, term, pretty-flag) alone — two engines with arbitrary prior states
produce character-for-character identical output, so two consecutive calls
on one engine trivially do too. -/
theorem c9_stringify_deterministic (e₁ e₂ : Engine) (x t : String) (p : Bool) :
    Engine.stringify ((e₁.setRaw x).setSearch t) p =
      Engine.stringify ((e₂.setRaw x).setSearch t) p := rfl

/-- C10: `Parser.lines` returns the JSON value of the compact serialization
when that value is an array — which it always is for a serialized document
(an array of root lines) — and fails with "expected array" exactly when the
top-level value is not an array. -/
theorem c10_lines_array :
    (∀ e : Engine, e.linesTS = linesOfJson e.stringifyJson)
    ∧ (∀ xs : List Json, linesOfJson (Json.arr xs) = Except.ok xs)
    ∧ (∀ j : Json, j.isArr = false → linesOfJson j = Except.error "expected array")
    ∧ (∀ e : Engine, e.linesTS = Except.ok (jsonOfLines (hlApply e.term e.doc))) := by
  refine ⟨fun e => rfl, fun xs => rfl, fun j h => ?_, fun e => rfl⟩
  cases j <;> simp_all [Json.isArr, linesOfJson]

theorem c10_witness : linesOfJson (Json.num 0) = Except.error "expected array" :=
  c10_lines_array.2.2.1 (Json.num 0) rfl

end ActionsLogs
